import Mathlib

/-!
Shallow embedding of the DATARADAR pricing core.

Sources embedded here:
- src/pricing_engine.py : PRICING_TIERS, get_ai_consensus, calculate_pricing_window
- src/ebay_auto_pricing.py : match_listing_to_rule, the planning loop of
  run_pricing_update (called build_plan below, following the specification's
  name for that loop), the live-update loop, revert_prices, and
  get_active_pricing_windows.

Conventions: Python str is Lean String (lower/upper via Char.toLower/toUpper,
adequate for the ASCII data this program handles); Python float prices are
exact rationals, with Python round(x, 2) embedded as round-half-to-even on
x * 100; Python datetime values (always midnight here) are calendar dates,
embedded as days-since-epoch integers via the standard civil-calendar
conversion; Python dicts built by insertion are association lists that append
new keys at the end, matching dict iteration order.
-/

namespace DataRadar

/-- Characters of a string, lowercased: models Python str.lower() applied
before the substring test in match_listing_to_rule. -/
def lowerChars (s : String) : List Char := s.data.map Char.toLower

/-- Python str.upper(): character-wise uppercase, written on the underlying
character list so that proofs can compute with it. -/
def upperStr (s : String) : String := ⟨s.data.map Char.toUpper⟩

/-- needle is an initial segment of haystack (helper for the substring test). -/
def startsWithList : List Char → List Char → Bool
  | [], _ => true
  | _ :: _, [] => false
  | a :: as, b :: bs => a == b && startsWithList as bs

/-- Python's `needle in haystack` on strings: needle occurs contiguously. -/
def isSub (needle : List Char) : List Char → Bool
  | [] => needle.isEmpty
  | c :: rest => startsWithList needle (c :: rest) || isSub needle rest

/-- One pricing rule, as built by get_active_pricing_windows
(src/ebay_auto_pricing.py lines 258-266). -/
structure Rule where
  item : String
  keywords : List String
  event : String
  tier : String
  increase_percent : Int
  start_date : String
  end_date : String
deriving Repr, DecidableEq

/-- One live listing as returned by the inventory source. -/
structure Listing where
  item_id : String
  title : String
  current_price : ℚ
deriving Repr, DecidableEq

/-- Does some keyword of the rule occur case-insensitively in the title?
(the inner loop of match_listing_to_rule). -/
def rule_matches (title : String) (r : Rule) : Bool :=
  r.keywords.any (fun kw => isSub (lowerChars kw) (lowerChars title))

/-- src/ebay_auto_pricing.py match_listing_to_rule: first rule, in the given
order, with a keyword that is a case-insensitive substring of the title. -/
def match_listing_to_rule (title : String) (rules : List Rule) : Option Rule :=
  rules.find? (rule_matches title)

/-- Python round() to an integer: round-half-to-even. -/
def roundHalfEven (q : ℚ) : ℤ :=
  if q - (⌊q⌋ : ℚ) < 1 / 2 then ⌊q⌋
  else if 1 / 2 < q - (⌊q⌋ : ℚ) then ⌊q⌋ + 1
  else if ⌊q⌋ % 2 = 0 then ⌊q⌋ else ⌊q⌋ + 1

/-- Python round(x, 2) on exact rational arithmetic. -/
def round2 (q : ℚ) : ℚ := (roundHalfEven (q * 100) : ℚ) / 100

/-- The new price computed in run_pricing_update:
round(current_price * (1 + increase_pct / 100), 2). -/
def new_price_of (current : ℚ) (inc : Int) : ℚ :=
  round2 (current * (1 + (inc : ℚ) / 100))

/-- One entry of the update plan (the dict appended to `updates` in
run_pricing_update). -/
structure PlanEntry where
  item_id : String
  title : String
  current_price : ℚ
  new_price : ℚ
  tier : String
  increase_pct : Int
  event : String
deriving Repr, DecidableEq

/-- The per-listing step of the planning loop in run_pricing_update
(src/ebay_auto_pricing.py lines 364-391): match, recompute the price from the
CURRENT price, and emit an entry only when it strictly increases. -/
def plan_for (rules : List Rule) (l : Listing) : Option PlanEntry :=
  match match_listing_to_rule l.title rules with
  | none => none
  | some r =>
    let np := new_price_of l.current_price r.increase_percent
    if l.current_price < np then
      some ⟨l.item_id, ⟨l.title.data.take 50⟩, l.current_price, np,
            r.tier, r.increase_percent, r.event⟩
    else none

/-- The full planning pass of run_pricing_update over the listings snapshot
(the specification calls this build_plan). Listings matching no rule are
dropped; matched listings whose recomputed price does not increase are
dropped. -/
def build_plan (listings : List Listing) (rules : List Rule) : List PlanEntry :=
  listings.filterMap (plan_for rules)

/-- Marketplace state after a live run in which every update succeeded: each
listing named by a plan entry now carries that entry's new_price. -/
def apply_plan (listings : List Listing) (plan : List PlanEntry) : List Listing :=
  listings.map (fun l =>
    match plan.find? (fun e => e.item_id == l.item_id) with
    | some e => { l with current_price := e.new_price }
    | none => l)

/-- A call to the price mutator (ebay.update_price): item id and price sent. -/
def update_price_call (item_id : String) (price : ℚ) : String × ℚ :=
  (item_id, price)

/-- The sequence of price-mutator calls the live branch of run_pricing_update
makes for a plan (src/ebay_auto_pricing.py lines 429-442). -/
def live_calls (plan : List PlanEntry) : List (String × ℚ) :=
  plan.map (fun u => update_price_call u.item_id u.new_price)

/-- src/ebay_auto_pricing.py revert_prices: for each logged entry, call
update_price with the entry's old (current_price) value. -/
def revert_prices (log_updates : List PlanEntry) : List (String × ℚ) :=
  log_updates.map (fun u => update_price_call u.item_id u.current_price)

/-- One oracle's response that survived the `result and "tier" in result`
filter of get_ai_consensus: a source tag, the raw tier string exactly as the
oracle produced it, and the reported confidence. -/
structure TierVote where
  source : String
  tier : String
  confidence : ℚ
deriving Repr, DecidableEq

/-- The dict returned by get_ai_consensus (reasonings and ai_count omitted;
no claim touches them). -/
structure Consensus where
  tier : String
  confidence : ℚ
  consensus : Bool
  votes : List (String × Nat)
deriving Repr, DecidableEq

/-- One step of building the tier_votes dict:
tier_votes[tier] = tier_votes.get(tier, 0) + 1. A new key is appended at the
end, matching Python dict insertion order. -/
def addVote : List (String × Nat) → String → List (String × Nat)
  | [], t => [(t, 1)]
  | (k, c) :: rest, t =>
    if k = t then (k, c + 1) :: rest else (k, c) :: addVote rest t

/-- The tier_votes dict after the counting loop of get_ai_consensus: keyed by
r.get("tier").upper(), in first-arrival order. -/
def tally (results : List TierVote) : List (String × Nat) :=
  results.foldl (fun acc r => addVote acc (upperStr r.tier)) []

/-- Python max(tier_votes, key=tier_votes.get): scan the entries in dict
order, replacing the running maximum only on a strictly larger count, so the
first key attaining the maximal count wins. -/
def maxPair : String × Nat → List (String × Nat) → String × Nat
  | p, [] => p
  | p, q :: rest => if p.2 < q.2 then maxPair q rest else maxPair p rest

/-- The winning (tier, vote_count) pair of a nonempty tier_votes dict. -/
def winningPair : List (String × Nat) → String × Nat
  | [] => ("MEDIUM", 0)
  | p :: rest => maxPair p rest

/-- tier_confidence[t]: confidences of the votes whose uppercased tier is t,
in arrival order. -/
def confidencesFor (results : List TierVote) (t : String) : List ℚ :=
  (results.filter (fun r => upperStr r.tier == t)).map (fun r => r.confidence)

/-- src/pricing_engine.py get_ai_consensus, lines 161-208, over the list of
usable oracle responses (responses that failed or lacked a "tier" key never
enter this list). Total: every input yields a Consensus, never an error. -/
def get_ai_consensus (results : List TierVote) : Consensus :=
  if results.isEmpty then
    { tier := "MEDIUM", confidence := 1 / 2, consensus := false, votes := [] }
  else
    let votes := tally results
    let w := winningPair votes
    let confs := confidencesFor results w.1
    { tier := w.1
      confidence := round2 (confs.sum / (confs.length : ℚ))
      consensus := decide (2 ≤ w.2)
      votes := votes }

/-- tier_votes.get(t, 0): the count stored for key t, first entry wins. -/
def lookupCount : List (String × Nat) → String → Nat
  | [], _ => 0
  | (k, c) :: rest, t => if k = t then c else lookupCount rest t

/-- How many usable responses voted (after uppercasing) for tier string t. -/
def countTier (results : List TierVote) (t : String) : Nat :=
  (results.filter (fun r => upperStr r.tier == t)).length

/-- The keys of a tier_votes dict, in order. -/
def keysOf (l : List (String × Nat)) : List String := l.map Prod.fst

/-- The four tiers of src/pricing_engine.py PRICING_TIERS. -/
inductive Tier
  | MINOR
  | MEDIUM
  | MAJOR
  | PEAK
deriving Repr, DecidableEq

/-- The policy row stored for a tier in PRICING_TIERS. -/
structure TierPolicy where
  increase : Nat
  window_days : Nat
deriving Repr, DecidableEq

/-- src/pricing_engine.py PRICING_TIERS (lines 27-32). -/
def PRICING_TIERS : Tier → TierPolicy
  | .MINOR => ⟨5, 7⟩
  | .MEDIUM => ⟨15, 10⟩
  | .MAJOR => ⟨25, 14⟩
  | .PEAK => ⟨35, 14⟩

/-- Days since 1970-01-01 of a civil date (proleptic Gregorian), the standard
days-from-civil algorithm. Embeds a Python datetime at midnight as one
integer; datetime comparison and timedelta arithmetic become integer
comparison and addition on this value. -/
def days_from_civil (y m d : Int) : Int :=
  let y2 := if m ≤ 2 then y - 1 else y
  let era := (if 0 ≤ y2 then y2 else y2 - 399) / 400
  let yoe := y2 - era * 400
  let mp := (m + 9) % 12
  let doy := (153 * mp + 2) / 5 + d - 1
  let doe := yoe * 365 + yoe / 4 - yoe / 100 + doy
  era * 146097 + doe - 719468

/-- Inverse of days_from_civil: the (year, month, day) a datetime prints as
(models strftime("%Y-%m-%d")). -/
def civil_from_days (z0 : Int) : Int × Int × Int :=
  let z := z0 + 719468
  let era := (if 0 ≤ z then z else z - 146096) / 146097
  let doe := z - era * 146097
  let yoe := (doe - doe / 1460 + doe / 36524 - doe / 146096) / 365
  let y := yoe + era * 400
  let doy := doe - (365 * yoe + yoe / 4 - yoe / 100)
  let mp := (5 * doy + 2) / 153
  let d := doy - (153 * mp + 2) / 5 + 1
  let m := if mp < 10 then mp + 3 else mp - 9
  (if m ≤ 2 then y + 1 else y, m, d)

/-- A civil date (what datetime.now() or a parsed event date denotes). -/
structure Date where
  year : Int
  month : Int
  day : Int
deriving Repr, DecidableEq

/-- The day number of a Date. -/
def toDays (dt : Date) : Int := days_from_civil dt.year dt.month dt.day

/-- The dict returned by calculate_pricing_window, with the three dates as
day numbers (the code formats them with strftime; civil_from_days recovers
that rendering). -/
structure Window where
  event_date : Int
  price_start : Int
  price_end : Int
  window_days : Nat
deriving Repr, DecidableEq

/-- src/pricing_engine.py calculate_pricing_window (lines 211-239) after the
event string has been parsed to a (month, day) pair: bind the pair to the
reference year, roll one year forward if that date is strictly before the
reference date, then start window_days before and end 2 days after. -/
def calculate_pricing_window (m d : Int) (tier : Tier) (now : Date) : Window :=
  let e0 : Date := ⟨now.year, m, d⟩
  let event : Int :=
    if toDays e0 < toDays now then toDays (⟨now.year + 1, m, d⟩ : Date)
    else toDays e0
  let w := (PRICING_TIERS tier).window_days
  { event_date := event
    price_start := event - (w : Int)
    price_end := event + 2
    window_days := w }

/-- Whitespace stripped by Python str.strip() (the kinds occurring here). -/
def isSpace (c : Char) : Bool :=
  c == ' ' || c == '\t' || c == '\n' || c == '\r'

/-- Python str.strip(). -/
def strip (s : String) : String :=
  ⟨((s.data.dropWhile isSpace).reverse.dropWhile isSpace).reverse⟩

/-- Worker for splitComma: acc holds the current field reversed. -/
def splitCommaAux : List Char → List Char → List String
  | acc, [] => [⟨acc.reverse⟩]
  | acc, c :: rest =>
    if c = ',' then ⟨acc.reverse⟩ :: splitCommaAux [] rest
    else splitCommaAux (c :: acc) rest

/-- Python str.split(','): fields between commas, empty fields kept. -/
def splitComma (s : String) : List String := splitCommaAux [] s.data

/-- Decimal digits to a number; none when empty or a non-digit occurs. -/
def digitsToNat : List Char → Option Nat
  | [] => none
  | l =>
    l.foldl
      (fun acc c =>
        match acc with
        | none => none
        | some n => if c.isDigit then some (n * 10 + (c.toNat - 48)) else none)
      (some 0)

/-- Python int(str): optional surrounding whitespace and sign, then digits;
none models a ValueError. -/
def parseInt (s : String) : Option Int :=
  match (strip s).data with
  | '-' :: rest => (digitsToNat rest).map (fun n => -(n : Int))
  | '+' :: rest => (digitsToNat rest).map (fun n => (n : Int))
  | l => (digitsToNat l).map (fun n => (n : Int))

/-- Python `a <= b` on strings: lexicographic by code point. -/
def charListLe : List Char → List Char → Bool
  | [], _ => true
  | _ :: _, [] => false
  | a :: as, b :: bs =>
    if a.toNat < b.toNat then true
    else if b.toNat < a.toNat then false
    else charListLe as bs

/-- String comparison used for the start_date <= today <= end_date check. -/
def strLeB (a b : String) : Bool := charListLe a.data b.data

/-- The per-row step of the sheet branch of get_active_pricing_windows
(src/ebay_auto_pricing.py lines 243-270): require 7 cells and nonempty item
and keyword cells, require the active flag (cell 8, default Y), split the
keyword cell on commas and strip each piece, keep the row only when
start_date <= today <= end_date, and coerce a bad increase cell to 10. -/
def parse_row (today : String) (row : List String) : Option Rule :=
  if 7 ≤ row.length && row.getD 0 "" != "" && row.getD 1 "" != "" then
    let is_active := if 7 < row.length then upperStr (row.getD 7 "") else "Y"
    if is_active != "Y" then none
    else
      let start_date := row.getD 5 ""
      let end_date := row.getD 6 ""
      if start_date != "" && end_date != "" &&
          strLeB start_date today && strLeB today end_date then
        let increase : Int :=
          if row.getD 4 "" = "" then 10
          else (parseInt (row.getD 4 "")).getD 10
        some
          { item := row.getD 0 ""
            keywords := (splitComma (row.getD 1 "")).map strip
            event := row.getD 2 ""
            tier := row.getD 3 ""
            increase_percent := increase
            start_date := start_date
            end_date := end_date }
      else none
  else none

/-- src/ebay_auto_pricing.py get_active_pricing_windows (lines 225-321),
with its two external dependencies made explicit: the primary rule source
(the Google Sheet read, which either yields rows or fails — any exception,
including absent credentials, lands in the error case) and the last
successfully persisted local copy pricing_rules.json (none when the file is
absent, raising FileNotFoundError). The primary source is consulted first;
on its failure the local copy is filtered by date; an absent copy yields [].
Total: no rule-source failure escapes to the caller, and [] is an ordinary
return value. -/
def get_active_pricing_windows (sheet : Except String (List (List String)))
    (local_copy : Option (List Rule)) (today : String) : List Rule :=
  match sheet with
  | .ok rows => rows.filterMap (parse_row today)
  | .error _ =>
    match local_copy with
    | none => []
    | some rules =>
      rules.filter (fun r =>
        r.start_date != "" && r.end_date != "" &&
        strLeB r.start_date today && strLeB today r.end_date)

/-! Helper lemmas shared by several claims. -/

theorem roundHalfEven_intCast (n : ℤ) : roundHalfEven ((n : ℚ)) = n := by
  unfold roundHalfEven
  rw [Int.floor_intCast]
  norm_num

theorem roundHalfEven_ge (y : ℚ) : y - 1 / 2 ≤ (roundHalfEven y : ℚ) := by
  unfold roundHalfEven
  have h1 : (⌊y⌋ : ℚ) ≤ y := Int.floor_le y
  have h2 : y < ⌊y⌋ + 1 := Int.lt_floor_add_one y
  split_ifs <;> push_cast <;> linarith

theorem new_price_of_eq (p : ℚ) (i : ℤ) (n : ℤ)
    (h : p * (1 + (i : ℚ) / 100) * 100 = (n : ℚ)) :
    new_price_of p i = (n : ℚ) / 100 := by
  unfold new_price_of round2
  rw [h, roundHalfEven_intCast]

theorem match_singleton (title : String) (r : Rule) (hm : rule_matches title r = true) :
    match_listing_to_rule title [r] = some r := by
  unfold match_listing_to_rule
  exact List.find?_cons_of_pos _ hm

theorem build_plan_singleton (l : Listing) (r : Rule)
    (hm : rule_matches l.title r = true) :
    build_plan [l] [r] =
      if l.current_price < new_price_of l.current_price r.increase_percent then
        [⟨l.item_id, ⟨l.title.data.take 50⟩, l.current_price,
          new_price_of l.current_price r.increase_percent,
          r.tier, r.increase_percent, r.event⟩]
      else [] := by
  simp only [build_plan, List.filterMap_cons, List.filterMap_nil, plan_for,
    match_singleton l.title r hm]
  by_cases hlt : l.current_price < new_price_of l.current_price r.increase_percent
  · simp only [if_pos hlt]
  · simp only [if_neg hlt]

theorem isSub_nil (l : List Char) : isSub [] l = true := by
  cases l <;> rfl

theorem find?_eq_some_first {α : Type} (p : α → Bool) :
    ∀ (l : List α) (a : α),
      l.find? p = some a ↔
        ∃ i, ∃ hi : i < l.length, a = l.get ⟨i, hi⟩ ∧ p a = true ∧
          ∀ j, ∀ hj : j < l.length, j < i → p (l.get ⟨j, hj⟩) = false := by
  intro l
  induction l with
  | nil => intro a; simp [List.find?]
  | cons b t ih =>
    intro a
    cases hb : p b with
    | true =>
      rw [List.find?_cons_of_pos _ hb]
      constructor
      · intro h
        cases h
        exact ⟨0, by simp, rfl, hb, fun j hj hji => absurd hji (Nat.not_lt_zero j)⟩
      · rintro ⟨i, hi, ha, hpa, hmin⟩
        cases i with
        | zero => simp [ha]
        | succ n =>
          have h0 : p b = false := hmin 0 (by simp) (Nat.succ_pos n)
          exact Bool.noConfusion (hb.symm.trans h0)
    | false =>
      rw [List.find?_cons_of_neg _ (by simp [hb]), ih a]
      constructor
      · rintro ⟨i, hi, ha, hpa, hmin⟩
        refine ⟨i + 1, Nat.succ_lt_succ hi, ha, hpa, ?_⟩
        intro j hj hji
        cases j with
        | zero => exact hb
        | succ k =>
          exact hmin k (Nat.lt_of_succ_lt_succ hj) (Nat.lt_of_succ_lt_succ hji)
      · rintro ⟨i, hi, ha, hpa, hmin⟩
        cases i with
        | zero =>
          rw [show a = b from ha] at hpa
          exact Bool.noConfusion (hpa.symm.trans hb)
        | succ n =>
          refine ⟨n, Nat.lt_of_succ_lt_succ hi, ha, hpa, ?_⟩
          intro j hj hji
          exact hmin (j + 1) (Nat.succ_lt_succ hj) (Nat.succ_lt_succ hji)

theorem find?_some_of_mem_index {α : Type} (p : α → Bool) :
    ∀ (l : List α) (i : Nat) (hi : i < l.length),
      p (l.get ⟨i, hi⟩) = true →
      ∃ j, ∃ hj : j < l.length, j ≤ i ∧ l.find? p = some (l.get ⟨j, hj⟩) := by
  intro l
  induction l with
  | nil => intro i hi; exact absurd hi (Nat.not_lt_zero i)
  | cons b t ih =>
    intro i hi hp
    cases hb : p b with
    | true => exact ⟨0, by simp, Nat.zero_le i, List.find?_cons_of_pos _ hb⟩
    | false =>
      cases i with
      | zero =>
        rw [show (b :: t).get ⟨0, hi⟩ = b from rfl] at hp
        exact Bool.noConfusion (hp.symm.trans hb)
      | succ n =>
        obtain ⟨j, hj, hji, hfind⟩ := ih n (Nat.lt_of_succ_lt_succ hi) hp
        refine ⟨j + 1, Nat.succ_lt_succ hj, Nat.succ_le_succ hji, ?_⟩
        rw [List.find?_cons_of_neg _ (by simp [hb])]
        exact hfind

theorem second_run_concrete :
    build_plan
        (apply_plan [⟨"A1", "Shepard Fairey Obama Hope Print", 200⟩]
          (build_plan [⟨"A1", "Shepard Fairey Obama Hope Print", 200⟩]
            [⟨"SF", ["shepard fairey"], "Event", "MAJOR", 25, "s", "e"⟩]))
        [⟨"SF", ["shepard fairey"], "Event", "MAJOR", 25, "s", "e"⟩] =
      [⟨"A1", "Shepard Fairey Obama Hope Print", 250, 625 / 2, "MAJOR", 25, "Event"⟩] := by
  have h1 : build_plan [⟨"A1", "Shepard Fairey Obama Hope Print", 200⟩]
      [⟨"SF", ["shepard fairey"], "Event", "MAJOR", 25, "s", "e"⟩] =
      [⟨"A1", "Shepard Fairey Obama Hope Print", 200, 250, "MAJOR", 25, "Event"⟩] := by
    rw [build_plan_singleton _ _ (by decide),
      new_price_of_eq 200 25 25000 (by norm_num)]
    norm_num
  have h2 : apply_plan [⟨"A1", "Shepard Fairey Obama Hope Print", 200⟩]
      [⟨"A1", "Shepard Fairey Obama Hope Print", 200, 250, "MAJOR", 25, "Event"⟩] =
      [⟨"A1", "Shepard Fairey Obama Hope Print", 250⟩] := rfl
  rw [h1, h2, build_plan_singleton _ _ (by decide),
    new_price_of_eq 250 25 31250 (by norm_num)]
  norm_num

/-! Theorems. -/

/-- C7: if zero oracle calls return a usable vote, get_ai_consensus returns
the fallback Consensus: tier MEDIUM, confidence 0.5, no consensus flag, an
empty vote dict. The embedding is a total function, so this case returns
normally rather than raising. -/
theorem C7_zero_votes :
    get_ai_consensus [] =
      { tier := "MEDIUM", confidence := 1 / 2, consensus := false, votes := [] } := rfl

/-- C8: reversal re-applies each logged entry's old price through the same
update_price path as a live run — reverting a log is exactly replaying it
with new_price replaced by the stored current_price, every logged entry (in
particular every successful one) has its old price re-applied, and the
concrete entry with old price 100 and new price 125 yields the reversal call
(item, 100). -/
theorem C8_reversal :
    (∀ log : List PlanEntry,
        revert_prices log =
          live_calls (log.map (fun u => { u with new_price := u.current_price }))) ∧
    (∀ (log : List PlanEntry) (u : PlanEntry), u ∈ log →
        update_price_call u.item_id u.current_price ∈ revert_prices log) ∧
    revert_prices [⟨"A1", "Item A1", 100, 125, "MAJOR", 25, "Event"⟩] = [("A1", 100)] := by
  refine ⟨?_, ?_, rfl⟩
  · intro log
    simp [revert_prices, live_calls, update_price_call, List.map_map, Function.comp]
  · intro log u hu
    exact List.mem_map_of_mem _ hu

/-- Witness for C8: the membership conjunct applied to the one-entry log. -/
theorem C8_reversal_witness :
    update_price_call "A1" 100 ∈
      revert_prices [⟨"A1", "Item A1", 100, 125, "MAJOR", 25, "Event"⟩] :=
  C8_reversal.2.1 [⟨"A1", "Item A1", 100, 125, "MAJOR", 25, "Event"⟩]
    ⟨"A1", "Item A1", 100, 125, "MAJOR", 25, "Event"⟩ (by simp)

/-- C9: rule loading consults the primary source first (a successful sheet
read fixes the result, and the local copy is never consulted), on primary
failure the result is drawn from the persisted local copy alone (every
returned rule is one of the persisted rules, and which exception occurred is
irrelevant), and an absent local copy yields the empty list. The embedding
is a total function: no rule-source failure reaches the caller, and [] is an
ordinary non-error value. -/
theorem C9_rule_source_fallback :
    (∀ rows lc lc2 today,
        get_active_pricing_windows (.ok rows) lc today =
          get_active_pricing_windows (.ok rows) lc2 today) ∧
    (∀ err rules today r,
        r ∈ get_active_pricing_windows (.error err) (some rules) today → r ∈ rules) ∧
    (∀ e1 e2 lc today,
        get_active_pricing_windows (.error e1) lc today =
          get_active_pricing_windows (.error e2) lc today) ∧
    (∀ err today, get_active_pricing_windows (.error err) none today = []) := by
  refine ⟨fun _ _ _ _ => rfl, ?_, fun _ _ _ _ => rfl, fun _ _ => rfl⟩
  intro err rules today r hr
  exact List.mem_of_mem_filter hr

/-- Witness for C9: a persisted rule surviving the date filter is indeed one
of the persisted rules. -/
theorem C9_rule_source_fallback_witness :
    (⟨"I", ["k"], "E", "MAJOR", 25, "2025-01-01", "2025-12-31"⟩ : Rule) ∈
      [(⟨"I", ["k"], "E", "MAJOR", 25, "2025-01-01", "2025-12-31"⟩ : Rule)] :=
  C9_rule_source_fallback.2.1 "boom"
    [⟨"I", ["k"], "E", "MAJOR", 25, "2025-01-01", "2025-12-31"⟩] "2025-06-15"
    ⟨"I", ["k"], "E", "MAJOR", 25, "2025-01-01", "2025-12-31"⟩ (by decide)

/-- C3: every plan entry's new price is round(current × (1 + pct/100), 2)
computed for the matched rule, and an entry is emitted only when that value
strictly exceeds the current price; concretely, a 200.00 listing under a 25%
rule yields the 250.00 entry, and under a 0% rule yields no entry. -/
theorem C3_price_formula :
    (∀ listings rules e, e ∈ build_plan listings rules →
        ∃ l, l ∈ listings ∧ ∃ r, match_listing_to_rule l.title rules = some r ∧
          e.current_price = l.current_price ∧
          e.new_price = round2 (l.current_price * (1 + (r.increase_percent : ℚ) / 100)) ∧
          l.current_price < e.new_price) ∧
    build_plan [⟨"A1", "Shepard Fairey Obama Hope Print", 200⟩]
        [⟨"SF", ["shepard fairey"], "Event", "MAJOR", 25, "s", "e"⟩] =
      [⟨"A1", "Shepard Fairey Obama Hope Print", 200, 250, "MAJOR", 25, "Event"⟩] ∧
    build_plan [⟨"A1", "Shepard Fairey Obama Hope Print", 200⟩]
        [⟨"SF", ["shepard fairey"], "Event", "MAJOR", 0, "s", "e"⟩] = [] := by
  refine ⟨?_, ?_, ?_⟩
  · intro listings rules e he
    rw [build_plan, List.mem_filterMap] at he
    obtain ⟨l, hl, hfe⟩ := he
    refine ⟨l, hl, ?_⟩
    cases hm : match_listing_to_rule l.title rules with
    | none =>
      simp only [plan_for, hm] at hfe
      exact Option.noConfusion hfe
    | some r =>
      simp only [plan_for, hm] at hfe
      split_ifs at hfe with hlt
      obtain rfl := Option.some.inj hfe
      exact ⟨r, rfl, rfl, rfl, hlt⟩
  · rw [build_plan_singleton _ _ (by decide),
      new_price_of_eq 200 25 25000 (by norm_num)]
    norm_num
  · rw [build_plan_singleton _ _ (by decide),
      new_price_of_eq 200 0 20000 (by norm_num)]
    norm_num

/-- Witness for C3: the membership conjunct applied to the concrete plan. -/
theorem C3_price_formula_witness :
    ∃ l, l ∈ [(⟨"A1", "Shepard Fairey Obama Hope Print", 200⟩ : Listing)] ∧
      ∃ r, match_listing_to_rule l.title
          [⟨"SF", ["shepard fairey"], "Event", "MAJOR", 25, "s", "e"⟩] = some r ∧
        (⟨"A1", "Shepard Fairey Obama Hope Print", 200, 250, "MAJOR", 25, "Event"⟩ :
            PlanEntry).current_price = l.current_price ∧
        (⟨"A1", "Shepard Fairey Obama Hope Print", 200, 250, "MAJOR", 25, "Event"⟩ :
            PlanEntry).new_price =
          round2 (l.current_price * (1 + (r.increase_percent : ℚ) / 100)) ∧
        l.current_price <
          (⟨"A1", "Shepard Fairey Obama Hope Print", 200, 250, "MAJOR", 25, "Event"⟩ :
            PlanEntry).new_price :=
  C3_price_formula.1 [⟨"A1", "Shepard Fairey Obama Hope Print", 200⟩]
    [⟨"SF", ["shepard fairey"], "Event", "MAJOR", 25, "s", "e"⟩]
    ⟨"A1", "Shepard Fairey Obama Hope Print", 200, 250, "MAJOR", 25, "Event"⟩
    (by rw [C3_price_formula.2.1]; exact List.mem_singleton_self _)

/-- C4: for every parsed (month, day) pair, tier and reference date, the
window starts window_days(tier) days before the event date and ends 2 days
after it, so price_start ≤ event_date ≤ price_end; concretely, with
reference date 2025-08-01, month 7 day 20 (the parse of "July 20") and tier
PEAK, the event lands on 2026-07-20 with window 2026-07-06 .. 2026-07-22. -/
theorem C4_pricing_window :
    (∀ (m d : Int) (tier : Tier) (now : Date),
        (calculate_pricing_window m d tier now).price_start =
            (calculate_pricing_window m d tier now).event_date -
              ((PRICING_TIERS tier).window_days : Int) ∧
        (calculate_pricing_window m d tier now).price_end =
            (calculate_pricing_window m d tier now).event_date + 2 ∧
        (calculate_pricing_window m d tier now).price_start ≤
            (calculate_pricing_window m d tier now).event_date ∧
        (calculate_pricing_window m d tier now).event_date ≤
            (calculate_pricing_window m d tier now).price_end) ∧
    civil_from_days (calculate_pricing_window 7 20 .PEAK ⟨2025, 8, 1⟩).event_date =
        (2026, 7, 20) ∧
    civil_from_days (calculate_pricing_window 7 20 .PEAK ⟨2025, 8, 1⟩).price_start =
        (2026, 7, 6) ∧
    civil_from_days (calculate_pricing_window 7 20 .PEAK ⟨2025, 8, 1⟩).price_end =
        (2026, 7, 22) ∧
    (calculate_pricing_window 7 20 .PEAK ⟨2025, 8, 1⟩).window_days = 14 := by
  refine ⟨?_, by decide, by decide, by decide, by decide⟩
  intro m d tier now
  refine ⟨rfl, rfl, ?_, ?_⟩
  · show (calculate_pricing_window m d tier now).event_date -
        ((PRICING_TIERS tier).window_days : Int) ≤
      (calculate_pricing_window m d tier now).event_date
    omega
  · show (calculate_pricing_window m d tier now).event_date ≤
      (calculate_pricing_window m d tier now).event_date + 2
    omega

/-- C1 counterexample: the claim says that after a live run has applied a
matching rule's increase, a second run over the updated listings produces no
plan entry for that listing. On the code it is false: the 200.00 listing
under the 25% rule is updated to 250.00, and the second run recomputes 25%
from the CURRENT price, planning 312.50 — a nonempty plan. -/
theorem C1_counterexample :
    build_plan
        (apply_plan [⟨"A1", "Shepard Fairey Obama Hope Print", 200⟩]
          (build_plan [⟨"A1", "Shepard Fairey Obama Hope Print", 200⟩]
            [⟨"SF", ["shepard fairey"], "Event", "MAJOR", 25, "s", "e"⟩]))
        [⟨"SF", ["shepard fairey"], "Event", "MAJOR", 25, "s", "e"⟩] =
      [⟨"A1", "Shepard Fairey Obama Hope Print", 250, 625 / 2, "MAJOR", 25, "Event"⟩] ∧
    build_plan
        (apply_plan [⟨"A1", "Shepard Fairey Obama Hope Print", 200⟩]
          (build_plan [⟨"A1", "Shepard Fairey Obama Hope Print", 200⟩]
            [⟨"SF", ["shepard fairey"], "Event", "MAJOR", 25, "s", "e"⟩]))
        [⟨"SF", ["shepard fairey"], "Event", "MAJOR", 25, "s", "e"⟩] ≠ [] := by
  refine ⟨second_run_concrete, ?_⟩
  rw [second_run_concrete]
  simp

/-- C1 amended: build_plan is deterministic — the same unchanged listings
and active rules always yield the identical plan — but a live run is not
idempotent: the new price is recomputed from the current price, so any
listing priced at least 1 that matches a rule with increase_percent at
least 1 gets a strictly higher planned price on every run; concretely,
after the live 200.00 -> 250.00 update, the second run plans 312.50 for
the same listing rather than producing no entry. -/
theorem C1_build_plan_rerun :
    (∀ listings rules, build_plan listings rules = build_plan listings rules) ∧
    (∀ (p : ℚ) (i : ℤ), 1 ≤ p → 1 ≤ i → p < new_price_of p i) ∧
    build_plan
        (apply_plan [⟨"A1", "Shepard Fairey Obama Hope Print", 200⟩]
          (build_plan [⟨"A1", "Shepard Fairey Obama Hope Print", 200⟩]
            [⟨"SF", ["shepard fairey"], "Event", "MAJOR", 25, "s", "e"⟩]))
        [⟨"SF", ["shepard fairey"], "Event", "MAJOR", 25, "s", "e"⟩] =
      [⟨"A1", "Shepard Fairey Obama Hope Print", 250, 625 / 2, "MAJOR", 25, "Event"⟩] := by
  refine ⟨fun _ _ => rfl, ?_, second_run_concrete⟩
  intro p i hp hi
  have hi2 : (1 : ℚ) ≤ (i : ℚ) := by exact_mod_cast hi
  have hpi : (1 : ℚ) ≤ p * (i : ℚ) := by nlinarith
  have hq100 : p * 100 + 1 ≤ p * (1 + (i : ℚ) / 100) * 100 := by nlinarith
  have hr := roundHalfEven_ge (p * (1 + (i : ℚ) / 100) * 100)
  unfold new_price_of round2
  linarith

/-- Witness for C1: the strict-increase conjunct at the already-updated
price 250 with the 25% rule. -/
theorem C1_build_plan_rerun_witness : (250 : ℚ) < new_price_of 250 25 :=
  C1_build_plan_rerun.2.1 250 25 (by norm_num) (by norm_num)

/-- C5: match_listing_to_rule returns exactly the first rule, in the given
order, having a keyword that occurs case-insensitively in the title — hence
at most one rule per listing and no scoring or best-match search; when no
rule matches it returns none, and build_plan then drops the listing
entirely, producing no entry and no error. -/
theorem C5_first_match :
    (∀ title rules r,
        match_listing_to_rule title rules = some r ↔
          ∃ i, ∃ hi : i < rules.length, r = rules.get ⟨i, hi⟩ ∧
            rule_matches title r = true ∧
            ∀ j, ∀ hj : j < rules.length, j < i →
              rule_matches title (rules.get ⟨j, hj⟩) = false) ∧
    (∀ title rules,
        match_listing_to_rule title rules = none ↔
          ∀ r ∈ rules, rule_matches title r = false) ∧
    (∀ (l : Listing) (listings : List Listing) (rules : List Rule),
        match_listing_to_rule l.title rules = none →
        build_plan (l :: listings) rules = build_plan listings rules) := by
  refine ⟨?_, ?_, ?_⟩
  · intro title rules r
    exact find?_eq_some_first (rule_matches title) rules r
  · intro title rules
    unfold match_listing_to_rule
    rw [List.find?_eq_none]
    constructor
    · intro h r hr
      have := h r hr
      simpa using this
    · intro h r hr
      simp [h r hr]
  · intro l listings rules hnone
    simp only [build_plan, List.filterMap_cons, plan_for, hnone]

/-- Witness for C5: a listing matching no rule is dropped from the plan. -/
theorem C5_first_match_witness :
    build_plan [⟨"B2", "Mickey Mouse Cel", 50⟩, ⟨"B3", "Mickey Mouse Pin", 10⟩]
        [⟨"W", ["warhol"], "E", "MAJOR", 25, "s", "e"⟩] =
      build_plan [⟨"B3", "Mickey Mouse Pin", 10⟩]
        [⟨"W", ["warhol"], "E", "MAJOR", 25, "s", "e"⟩] :=
  C5_first_match.2.2 ⟨"B2", "Mickey Mouse Cel", 50⟩ [⟨"B3", "Mickey Mouse Pin", 10⟩]
    [⟨"W", ["warhol"], "E", "MAJOR", 25, "s", "e"⟩] (by decide)

theorem lookupCount_addVote (acc : List (String × Nat)) (s t : String) :
    lookupCount (addVote acc s) t =
      lookupCount acc t + (if s = t then 1 else 0) := by
  induction acc with
  | nil => by_cases h : s = t <;> simp [addVote, lookupCount, h]
  | cons p rest ih =>
    obtain ⟨k, c⟩ := p
    by_cases hks : k = s
    · subst hks
      by_cases hkt : k = t
      · subst hkt
        simp [addVote, lookupCount]
      · simp [addVote, lookupCount, hkt]
    · by_cases hkt : k = t
      · subst hkt
        have hst : ¬ s = k := fun h => hks h.symm
        simp [addVote, lookupCount, hks, hst]
      · simp [addVote, lookupCount, hks, hkt, ih]

theorem countTier_cons (r : TierVote) (rest : List TierVote) (t : String) :
    countTier (r :: rest) t =
      countTier rest t + (if upperStr r.tier = t then 1 else 0) := by
  unfold countTier
  simp only [List.filter_cons]
  by_cases h : upperStr r.tier = t
  · simp [h]
  · simp [h]

theorem lookupCount_tally_aux (rs : List TierVote) :
    ∀ (acc : List (String × Nat)) (t : String),
      lookupCount (rs.foldl (fun a r => addVote a (upperStr r.tier)) acc) t =
        lookupCount acc t + countTier rs t := by
  induction rs with
  | nil => intro acc t; simp [countTier]
  | cons r rest ih =>
    intro acc t
    simp only [List.foldl_cons]
    rw [ih, lookupCount_addVote, countTier_cons]
    omega

theorem lookupCount_tally (rs : List TierVote) (t : String) :
    lookupCount (tally rs) t = countTier rs t := by
  have h := lookupCount_tally_aux rs [] t
  simpa [tally, lookupCount] using h

theorem maxPair_ge (l : List (String × Nat)) :
    ∀ p : String × Nat, p.2 ≤ (maxPair p l).2 ∧ ∀ q ∈ l, q.2 ≤ (maxPair p l).2 := by
  induction l with
  | nil => intro p; exact ⟨le_refl _, fun q hq => absurd hq (List.not_mem_nil q)⟩
  | cons q rest ih =>
    intro p
    simp only [maxPair]
    by_cases h : p.2 < q.2
    · rw [if_pos h]
      obtain ⟨h1, h2⟩ := ih q
      refine ⟨le_trans (le_of_lt h) h1, ?_⟩
      intro x hx
      rcases List.mem_cons.mp hx with rfl | hx2
      · exact h1
      · exact h2 x hx2
    · rw [if_neg h]
      obtain ⟨h1, h2⟩ := ih p
      refine ⟨h1, ?_⟩
      intro x hx
      rcases List.mem_cons.mp hx with rfl | hx2
      · exact le_trans (Nat.le_of_not_lt h) h1
      · exact h2 x hx2

theorem maxPair_mem (l : List (String × Nat)) :
    ∀ p, maxPair p l = p ∨ maxPair p l ∈ l := by
  induction l with
  | nil => intro p; exact Or.inl rfl
  | cons q rest ih =>
    intro p
    simp only [maxPair]
    by_cases h : p.2 < q.2
    · rw [if_pos h]
      rcases ih q with h1 | h1
      · refine Or.inr ?_
        rw [h1]
        exact List.mem_cons_self q rest
      · exact Or.inr (List.mem_cons_of_mem q h1)
    · rw [if_neg h]
      rcases ih p with h1 | h1
      · exact Or.inl h1
      · exact Or.inr (List.mem_cons_of_mem q h1)

theorem keysOf_addVote (acc : List (String × Nat)) (s : String) :
    ∀ x ∈ keysOf (addVote acc s), x = s ∨ x ∈ keysOf acc := by
  induction acc with
  | nil =>
    intro x hx
    simp [addVote, keysOf] at hx
    exact Or.inl hx
  | cons p rest ih =>
    obtain ⟨k, c⟩ := p
    intro x hx
    by_cases hks : k = s
    · simp only [addVote, if_pos hks, keysOf, List.map_cons, List.mem_cons] at hx ⊢
      rcases hx with rfl | hx2
      · exact Or.inl hks
      · exact Or.inr (Or.inr hx2)
    · simp only [addVote, if_neg hks, keysOf, List.map_cons, List.mem_cons] at hx ⊢
      rcases hx with rfl | hx2
      · exact Or.inr (Or.inl rfl)
      · rcases ih x hx2 with h1 | h1
        · exact Or.inl h1
        · exact Or.inr (Or.inr h1)

theorem nodup_keysOf_addVote (acc : List (String × Nat)) (s : String)
    (h : (keysOf acc).Nodup) : (keysOf (addVote acc s)).Nodup := by
  induction acc with
  | nil => simp [addVote, keysOf]
  | cons p rest ih =>
    obtain ⟨k, c⟩ := p
    simp only [keysOf, List.map_cons, List.nodup_cons] at h
    obtain ⟨hk, hrest⟩ := h
    by_cases hks : k = s
    · simp only [addVote, if_pos hks, keysOf, List.map_cons, List.nodup_cons]
      exact ⟨hk, hrest⟩
    · simp only [addVote, if_neg hks, keysOf, List.map_cons, List.nodup_cons]
      refine ⟨?_, ih hrest⟩
      intro hmem
      rcases keysOf_addVote rest s k hmem with rfl | hmem2
      · exact hks rfl
      · exact hk hmem2

theorem nodup_keysOf_tally (rs : List TierVote) :
    ∀ acc, (keysOf acc).Nodup →
      (keysOf (rs.foldl (fun a r => addVote a (upperStr r.tier)) acc)).Nodup := by
  induction rs with
  | nil => intro acc h; exact h
  | cons r rest ih =>
    intro acc h
    exact ih _ (nodup_keysOf_addVote acc _ h)

theorem lookupCount_of_mem_nodup :
    ∀ l : List (String × Nat), (keysOf l).Nodup →
      ∀ t c, (t, c) ∈ l → lookupCount l t = c := by
  intro l
  induction l with
  | nil => intro _ t c hm; exact absurd hm (List.not_mem_nil _)
  | cons p rest ih =>
    obtain ⟨k, c0⟩ := p
    intro hnd t c hm
    simp only [keysOf, List.map_cons, List.nodup_cons] at hnd
    obtain ⟨hk, hrest⟩ := hnd
    rcases List.mem_cons.mp hm with heq | hm2
    · cases heq
      simp [lookupCount]
    · have hkt : ¬ k = t := by
        intro hkt
        subst hkt
        exact hk (List.mem_map_of_mem Prod.fst hm2)
      simp only [lookupCount, if_neg hkt]
      exact ih hrest t c hm2

theorem lookupCount_zero_or_mem :
    ∀ (l : List (String × Nat)) (t : String),
      lookupCount l t = 0 ∨ (t, lookupCount l t) ∈ l := by
  intro l
  induction l with
  | nil => intro t; exact Or.inl rfl
  | cons p rest ih =>
    obtain ⟨k, c⟩ := p
    intro t
    by_cases h : k = t
    · right
      subst h
      simp only [lookupCount, if_pos rfl]
      exact List.mem_cons_self _ _
    · rcases ih t with h0 | hm
      · left
        simpa [lookupCount, h] using h0
      · right
        simp only [lookupCount, if_neg h]
        exact List.mem_cons_of_mem _ hm

theorem addVote_ne_nil (acc : List (String × Nat)) (s : String) : addVote acc s ≠ [] := by
  cases acc with
  | nil => simp [addVote]
  | cons p rest =>
    obtain ⟨k, c⟩ := p
    by_cases h : k = s <;> simp [addVote, h]

theorem foldl_addVote_ne_nil (rs : List TierVote) :
    ∀ acc, acc ≠ [] → rs.foldl (fun a r => addVote a (upperStr r.tier)) acc ≠ [] := by
  induction rs with
  | nil => intro acc h; exact h
  | cons r rest ih =>
    intro acc h
    exact ih _ (addVote_ne_nil acc _)

theorem tally_ne_nil (rs : List TierVote) (h : rs ≠ []) : tally rs ≠ [] := by
  cases rs with
  | nil => exact absurd rfl h
  | cons r rest =>
    unfold tally
    simp only [List.foldl_cons]
    exact foldl_addVote_ne_nil rest _ (addVote_ne_nil [] _)

theorem winningPair_mem (votes : List (String × Nat)) (h : votes ≠ []) :
    winningPair votes ∈ votes := by
  cases votes with
  | nil => exact absurd rfl h
  | cons p rest =>
    show maxPair p rest ∈ p :: rest
    rcases maxPair_mem rest p with h1 | h1
    · rw [h1]
      exact List.mem_cons_self p rest
    · exact List.mem_cons_of_mem p h1

theorem winningPair_max (votes : List (String × Nat)) (h : votes ≠ []) :
    ∀ q ∈ votes, q.2 ≤ (winningPair votes).2 := by
  cases votes with
  | nil => exact absurd rfl h
  | cons p rest =>
    intro q hq
    rcases List.mem_cons.mp hq with rfl | hq2
    · exact (maxPair_ge rest q).1
    · exact (maxPair_ge rest p).2 q hq2

theorem mem_keysOf_foldl (rs : List TierVote) :
    ∀ acc x, x ∈ keysOf (rs.foldl (fun a r => addVote a (upperStr r.tier)) acc) →
      x ∈ keysOf acc ∨ ∃ r ∈ rs, x = upperStr r.tier := by
  induction rs with
  | nil => intro acc x hx; exact Or.inl hx
  | cons r rest ih =>
    intro acc x hx
    rcases ih _ x hx with hacc | hrest
    · rcases keysOf_addVote acc _ x hacc with h1 | h1
      · exact Or.inr ⟨r, List.mem_cons_self r rest, h1⟩
      · exact Or.inl h1
    · obtain ⟨r2, hr2, hxr⟩ := hrest
      exact Or.inr ⟨r2, List.mem_cons_of_mem r hr2, hxr⟩

theorem consensus_tier_eq (rs : List TierVote) (h : rs ≠ []) :
    (get_ai_consensus rs).tier = (winningPair (tally rs)).1 := by
  cases rs with
  | nil => exact absurd rfl h
  | cons r rest => rfl

theorem countTier_le_winner (rs : List TierVote) (h : rs ≠ []) (t : String) :
    countTier rs t ≤ countTier rs (get_ai_consensus rs).tier := by
  rw [consensus_tier_eq rs h]
  have hnd : (keysOf (tally rs)).Nodup := nodup_keysOf_tally rs [] (by simp [keysOf])
  have hmem : winningPair (tally rs) ∈ tally rs := winningPair_mem _ (tally_ne_nil rs h)
  have hw : lookupCount (tally rs) (winningPair (tally rs)).1 =
      (winningPair (tally rs)).2 := by
    apply lookupCount_of_mem_nodup _ hnd
    simpa using hmem
  rw [← lookupCount_tally, ← lookupCount_tally, hw]
  rcases lookupCount_zero_or_mem (tally rs) t with h0 | hm
  · rw [h0]
    exact Nat.zero_le _
  · exact winningPair_max _ (tally_ne_nil rs h) _ hm

theorem consensus_tier_from_votes (rs : List TierVote) (h : rs ≠ []) :
    ∃ r ∈ rs, (get_ai_consensus rs).tier = upperStr r.tier := by
  rw [consensus_tier_eq rs h]
  have hmem : winningPair (tally rs) ∈ tally rs := winningPair_mem _ (tally_ne_nil rs h)
  have hkey : (winningPair (tally rs)).1 ∈ keysOf (tally rs) :=
    List.mem_map_of_mem Prod.fst hmem
  rcases mem_keysOf_foldl rs [] _ hkey with h0 | hex
  · simp [keysOf] at h0
  · exact hex

/-- C10: splitting a keyword cell that has a trailing comma keeps the empty
field, and stripping keeps it empty, so the rule's keyword list contains "";
the empty string is a case-insensitive substring of every title, so once
some rule in the active order carries keyword "", every listing is matched
— to that rule or to an earlier one. -/
theorem C10_empty_keyword_matches_all :
    (splitComma "obama, hope,").map strip = ["obama", "hope", ""] ∧
    (∀ title : String, isSub (lowerChars "") (lowerChars title) = true) ∧
    (∀ rules title i, ∀ hi : i < rules.length,
        "" ∈ (rules.get ⟨i, hi⟩).keywords →
        ∃ j, ∃ hj : j < rules.length, j ≤ i ∧
          match_listing_to_rule title rules = some (rules.get ⟨j, hj⟩)) := by
  refine ⟨by decide, ?_, ?_⟩
  · intro title
    exact isSub_nil (lowerChars title)
  · intro rules title i hi hkw
    have hmatch : rule_matches title (rules.get ⟨i, hi⟩) = true := by
      unfold rule_matches
      rw [List.any_eq_true]
      exact ⟨"", hkw, isSub_nil (lowerChars title)⟩
    exact find?_some_of_mem_index (rule_matches title) rules i hi hmatch

/-- Witness for C10: a rule list whose second rule has keyword "" matches a
title that matches no real keyword. -/
theorem C10_empty_keyword_matches_all_witness :
    ∃ j, ∃ hj : j < ([⟨"W", ["warhol"], "E", "MAJOR", 25, "s", "e"⟩,
        ⟨"M", ["a", ""], "E2", "MEDIUM", 15, "s", "e"⟩] : List Rule).length,
      j ≤ 1 ∧
        match_listing_to_rule "Mickey Mouse Cel"
            [⟨"W", ["warhol"], "E", "MAJOR", 25, "s", "e"⟩,
             ⟨"M", ["a", ""], "E2", "MEDIUM", 15, "s", "e"⟩] =
          some (([⟨"W", ["warhol"], "E", "MAJOR", 25, "s", "e"⟩,
             ⟨"M", ["a", ""], "E2", "MEDIUM", 15, "s", "e"⟩] : List Rule).get ⟨j, hj⟩) :=
  C10_empty_keyword_matches_all.2.2
    [⟨"W", ["warhol"], "E", "MAJOR", 25, "s", "e"⟩,
     ⟨"M", ["a", ""], "E2", "MEDIUM", 15, "s", "e"⟩] "Mickey Mouse Cel" 1
    (by decide) (by decide)

/-- C2 counterexample: the claim says a tie between MEDIUM and MAJOR is
broken by higher severity, so votes {MEDIUM, MAJOR} yield MAJOR. On the
code, max(tier_votes, key=tier_votes.get) keeps the first key attaining the
maximal count in dict insertion order, so with the MEDIUM vote processed
first the winner is MEDIUM, not MAJOR. -/
theorem C2_tie_counterexample :
    (get_ai_consensus [⟨"claude", "MEDIUM", 4 / 5⟩, ⟨"openai", "MAJOR", 4 / 5⟩]).tier
        = "MEDIUM" ∧
    "MEDIUM" ≠ "MAJOR" := ⟨by decide, by decide⟩

/-- C2 amended: for every nonempty collection of usable oracle votes the
Tier Classifier chooses a tier with the maximal vote count (plurality), but
a tie between tiers of equal count is broken by which tier was tallied
first — the processing order of the responses — not by higher severity:
votes [MEDIUM, MEDIUM, MAJOR] yield MEDIUM, while the tied votes
[MEDIUM, MAJOR] yield MEDIUM and [MAJOR, MEDIUM] yield MAJOR. -/
theorem C2_plurality_order_tiebreak :
    (∀ rs : List TierVote, rs ≠ [] →
        ∀ t, countTier rs t ≤ countTier rs (get_ai_consensus rs).tier) ∧
    (get_ai_consensus [⟨"claude", "MEDIUM", 4 / 5⟩, ⟨"openai", "MEDIUM", 7 / 10⟩,
        ⟨"gemini", "MAJOR", 9 / 10⟩]).tier = "MEDIUM" ∧
    (get_ai_consensus [⟨"claude", "MEDIUM", 4 / 5⟩, ⟨"openai", "MAJOR", 4 / 5⟩]).tier
        = "MEDIUM" ∧
    (get_ai_consensus [⟨"claude", "MAJOR", 4 / 5⟩, ⟨"openai", "MEDIUM", 4 / 5⟩]).tier
        = "MAJOR" :=
  ⟨countTier_le_winner, by decide, by decide, by decide⟩

/-- Witness for C2: the plurality conjunct at the concrete tied votes. -/
theorem C2_plurality_order_tiebreak_witness :
    countTier [⟨"claude", "MEDIUM", 4 / 5⟩, ⟨"openai", "MAJOR", 4 / 5⟩] "MAJOR" ≤
      countTier [⟨"claude", "MEDIUM", 4 / 5⟩, ⟨"openai", "MAJOR", 4 / 5⟩]
        (get_ai_consensus
          [⟨"claude", "MEDIUM", 4 / 5⟩, ⟨"openai", "MAJOR", 4 / 5⟩]).tier :=
  C2_plurality_order_tiebreak.1
    [⟨"claude", "MEDIUM", 4 / 5⟩, ⟨"openai", "MAJOR", 4 / 5⟩] (by decide) "MAJOR"

/-- C6 counterexample: the claim says a vote whose uppercased tier string is
not one of the four tiers is discarded, so a single such vote would leave
zero valid votes and the MEDIUM fallback. On the code there is no enum
validation: the single vote "banana" is uppercased, counted, and wins, so
the consensus tier is "BANANA", outside the enum. -/
theorem C6_invalid_tier_counterexample :
    (get_ai_consensus [⟨"claude", "banana", 9 / 10⟩]).tier = "BANANA" ∧
    "BANANA" ∉ (["MINOR", "MEDIUM", "MAJOR", "PEAK"] : List String) :=
  ⟨by decide, by decide⟩

/-- C6 amended: get_ai_consensus uppercases each usable response's tier
string but never validates it against the four-tier enum; only responses
lacking a "tier" key are dropped before counting. Hence for any nonempty
vote list the chosen tier is the uppercase of some submitted tier string,
whatever it is, and a lone invalid string such as "banana" wins as
"BANANA" with a full vote counted. -/
theorem C6_no_enum_validation :
    (∀ rs : List TierVote, rs ≠ [] →
        ∃ r ∈ rs, (get_ai_consensus rs).tier = upperStr r.tier) ∧
    (get_ai_consensus [⟨"claude", "banana", 9 / 10⟩]).tier = "BANANA" ∧
    countTier [⟨"claude", "banana", 9 / 10⟩] "BANANA" = 1 :=
  ⟨consensus_tier_from_votes, by decide, by decide⟩

/-- Witness for C6: the winner-from-votes conjunct at the lone invalid
vote. -/
theorem C6_no_enum_validation_witness :
    ∃ r ∈ [(⟨"claude", "banana", 9 / 10⟩ : TierVote)],
      (get_ai_consensus [(⟨"claude", "banana", 9 / 10⟩ : TierVote)]).tier =
        upperStr r.tier :=
  C6_no_enum_validation.1 [⟨"claude", "banana", 9 / 10⟩] (by decide)

end DataRadar
